import Mathlib

/-!
A shallow embedding of the capability orchestration router of
ollama-notion-apex-orchestrator.  The repository ships only the HTTP entry
point (`src/index.js`) and an integration-test script; the router components
it requires (`services/function-router` and the capability adapters) are not
in the repository, so the Registry, Planner, Dispatcher, Aggregator and
Orchestration Session below are modelled from the specification.  The
`/orchestrate` HTTP handler at the end is translated from `src/index.js`.
Machine concurrency is modelled by a deterministic environment `env` giving
each attempt of each step its outcome; the Dispatcher collects one terminal
StepResult per step in plan order.
-/

namespace Apex

/-- Modelled from the spec: the `kind` enum of a Capability.  The services
module defining capabilities is absent from the repository. -/
inductive CapKind
  | Inference
  | Execution
  | Storage
  | PeerNetwork
  | ToolRegistry
deriving DecidableEq

/-- Modelled from the spec: mutable health state of a capability,
`{available, consecutiveFailures, cooldownUntil}`.  Timestamps are
milliseconds as `Nat`. -/
structure CapHealth where
  available : Bool
  consecutiveFailures : Nat
  cooldownUntil : Option Nat
deriving DecidableEq

/-- Modelled from the spec: a registered capability. -/
structure Capability where
  name : String
  kind : CapKind
  health : CapHealth
deriving DecidableEq

/-- Modelled from the spec: the Capability Registry together with its
circuit-breaker configuration (failure threshold, default 3, and the cap on
the exponential backoff, default 5 minutes = 300000 ms). -/
structure Registry where
  caps : List Capability
  threshold : Nat
  maxBackoffMs : Nat
deriving DecidableEq

/-- Modelled from the spec: exponential backoff capped at a maximum. -/
def backoff (n maxMs : Nat) : Nat := min (1000 * 2 ^ n) maxMs

/-- Modelled from the spec: the per-capability update `recordOutcome`
performs.  Success resets `consecutiveFailures` to 0 and clears
`cooldownUntil`; failure increments `consecutiveFailures` and, when it
crosses the threshold, sets `available := false` and
`cooldownUntil := now + backoff consecutiveFailures`. -/
def applyOutcome (threshold maxMs : Nat) (name : String) (success : Bool)
    (now : Nat) (c : Capability) : Capability :=
  if c.name = name then
    if success then
      { c with health := { c.health with consecutiveFailures := 0, cooldownUntil := none } }
    else
      let cf := c.health.consecutiveFailures + 1
      if threshold ≤ cf then
        { c with health :=
            { available := false, consecutiveFailures := cf,
              cooldownUntil := some (now + backoff cf maxMs) } }
      else
        { c with health := { c.health with consecutiveFailures := cf } }
  else c

/-- Modelled from the spec: `recordOutcome(name, success)` of the Registry. -/
def recordOutcome (reg : Registry) (name : String) (success : Bool) (now : Nat) :
    Registry :=
  { reg with caps := reg.caps.map (applyOutcome reg.threshold reg.maxBackoffMs name success now) }

/-- Three consecutive `recordOutcome(x, false)` calls with no intervening
success, all at time `t`. -/
def failThrice (reg : Registry) (x : String) (t : Nat) : Registry :=
  recordOutcome (recordOutcome (recordOutcome reg x false t) x false t) x false t

/-- Modelled from the spec: a capability is in cooldown while its
`cooldownUntil` is in the future. -/
def cooldownPassed (h : CapHealth) (now : Nat) : Bool :=
  match h.cooldownUntil with
  | none => true
  | some u => u ≤ now

/-- Modelled from the spec: `listAvailable()` excludes any capability whose
`cooldownUntil` is in the future. -/
def listAvailable (reg : Registry) (now : Nat) : List Capability :=
  reg.caps.filter (fun c => cooldownPassed c.health now)

/-- The names of the currently available capabilities. -/
def availableNames (reg : Registry) (now : Nat) : List String :=
  (listAvailable reg now).map (fun c => c.name)

/-- Modelled from the spec: the Dispatcher's pre-check against Registry
availability before a step is attempted. -/
def capReady (reg : Registry) (name : String) (now : Nat) : Bool :=
  match reg.caps.find? (fun c => c.name == name) with
  | some c => cooldownPassed c.health now
  | none => false

/-- Modelled from the spec: a Step of a Plan.  `dependsOnOutputOf` holds
the global index (position in dispatch order) of a prior step whose output
feeds this one. -/
structure Step where
  capability : String
  input : String
  dependsOnOutputOf : Option Nat
deriving DecidableEq

/-- Modelled from the spec: a Stage is the collection of steps that may run
concurrently. -/
abbrev Stage := List Step

/-- Modelled from the spec: a Plan is an ordered sequence of Stages. -/
abbrev Plan := List Stage

/-- The total number of steps of a plan. -/
def planSize (p : Plan) : Nat := (p.map List.length).sum

/-- The steps of a plan in dispatch order, each tagged with its stage index;
the first argument numbers the first stage. -/
def flattenIdx : Nat → Plan → List (Nat × Step)
  | _, [] => []
  | si, stage :: rest => stage.map (fun s => (si, s)) ++ flattenIdx (si + 1) rest

/-- Modelled from the spec: terminal StepResult statuses. -/
inductive Status
  | Succeeded
  | Failed
  | Skipped
  | TimedOut
deriving DecidableEq

/-- Modelled from the spec: the StepResult record, tagged with the step's
global index and stage so the Aggregator can recover plan structure. -/
structure StepResult where
  stepIdx : Nat
  stage : Nat
  capability : String
  status : Status
  output : Option String
  error : Option String
  durationMs : Nat
deriving DecidableEq

/-- Modelled from the spec: what a single invocation attempt of a capability
adapter can come back with — success, a transient (retried) error, a
non-transient validation error (not retried), or expiry of the per-step
timer. -/
inductive AttemptOutcome
  | succeed (output : String) (durMs : Nat)
  | transientErr (msg : String) (durMs : Nat)
  | validationErr (msg : String) (durMs : Nat)
  | timeout
deriving DecidableEq

/-- Modelled from the spec: the Dispatcher's retry loop around one step.
`env i a` is the outcome of attempt `a` of the step with global index `i`;
`fuel` is the number of retries still allowed.  Timeouts and transient
errors are retried, validation errors are not; only the terminal attempt
becomes the step's StepResult. -/
def runAttempts (env : Nat → Nat → AttemptOutcome) (i timeoutMs : Nat) :
    Nat → Nat → Status × Option String × Option String × Nat
  | 0, a =>
    match env i a with
    | .succeed o d => (.Succeeded, some o, none, d)
    | .validationErr m d => (.Failed, none, some m, d)
    | .transientErr m d => (.Failed, none, some m, d)
    | .timeout => (.TimedOut, none, some "timeout", timeoutMs)
  | fuel + 1, a =>
    match env i a with
    | .succeed o d => (.Succeeded, some o, none, d)
    | .validationErr m d => (.Failed, none, some m, d)
    | .transientErr _ _ => runAttempts env i timeoutMs fuel (a + 1)
    | .timeout => runAttempts env i timeoutMs fuel (a + 1)

/-- Packs the terminal attempt of a step into its StepResult. -/
def mkStepResult (i si : Nat) (cap : String)
    (r : Status × Option String × Option String × Nat) : StepResult :=
  { stepIdx := i, stage := si, capability := cap,
    status := r.1, output := r.2.1, error := r.2.2.1, durationMs := r.2.2.2 }

/-- A Skipped StepResult carrying its reason in the error field. -/
def skippedResult (i si : Nat) (cap reason : String) : StepResult :=
  { stepIdx := i, stage := si, capability := cap, status := .Skipped,
    output := none, error := some reason, durationMs := 0 }

/-- Modelled from the spec: a step whose `dependsOnOutputOf` names a step
without a `Succeeded` StepResult must not be attempted. -/
def depSatisfied (s : Step) (acc : List StepResult) : Bool :=
  match s.dependsOnOutputOf with
  | none => true
  | some j =>
    match acc[j]? with
    | some r => r.status == Status.Succeeded
    | none => false

/-- Modelled from the spec: the Dispatcher's loop over the flattened plan.
`acc` holds the StepResults produced so far (the next step's global index is
`acc.length`), `inv` logs the global index of every step whose capability
was actually invoked, and the Registry is threaded through `recordOutcome`
after every attempted step. -/
def execGo (env : Nat → Nat → AttemptOutcome) (retries timeoutMs now : Nat) :
    List (Nat × Step) → List StepResult → List Nat → Registry →
      List StepResult × List Nat × Registry
  | [], acc, inv, reg => (acc, inv, reg)
  | (si, s) :: rest, acc, inv, reg =>
    if depSatisfied s acc then
      if capReady reg s.capability now then
        let r := mkStepResult acc.length si s.capability
          (runAttempts env acc.length timeoutMs retries 0)
        execGo env retries timeoutMs now rest (acc ++ [r]) (inv ++ [acc.length])
          (recordOutcome reg s.capability (r.status == Status.Succeeded) now)
      else
        execGo env retries timeoutMs now rest
          (acc ++ [skippedResult acc.length si s.capability "capability unavailable"]) inv reg
    else
      execGo env retries timeoutMs now rest
        (acc ++ [skippedResult acc.length si s.capability "upstream failure"]) inv reg

/-- Modelled from the spec: `execute(plan, options)`, returning the sequence
of StepResults together with the invocation log and the updated Registry. -/
def execute (p : Plan) (env : Nat → Nat → AttemptOutcome)
    (retries timeoutMs now : Nat) (reg : Registry) :
    List StepResult × List Nat × Registry :=
  execGo env retries timeoutMs now (flattenIdx 0 p) [] [] reg

/-- Modelled from the spec: capability names with at least one Succeeded
StepResult, in the order they first succeeded. -/
def firstSucceeded : List StepResult → List String
  | [] => []
  | r :: rest =>
    if r.status = Status.Succeeded then
      r.capability :: (firstSucceeded rest).filter (fun n => n != r.capability)
    else firstSucceeded rest

/-- The position of the first Succeeded StepResult of a capability
(`rs.length` when there is none). -/
def firstSuccessIdx (rs : List StepResult) (name : String) : Nat :=
  rs.findIdx (fun r => r.capability == name && r.status == Status.Succeeded)

/-- Modelled from the spec: the final stage of an orchestration — the stage
of the last StepResult of the dispatch-ordered sequence. -/
def finalStageOf (rs : List StepResult) : Option Nat :=
  rs.getLast?.map (fun r => r.stage)

/-- Modelled from the spec: `success` is true iff at least one step of the
final stage succeeded. -/
def aggSuccess (rs : List StepResult) : Bool :=
  match rs.getLast? with
  | none => false
  | some last => rs.any (fun r => r.stage == last.stage && r.status == Status.Succeeded)

/-- Modelled from the spec: `output` is the output of the final stage's
succeeded steps, keyed by capability name. -/
def finalOutputs (rs : List StepResult) : List (String × String) :=
  match rs.getLast? with
  | none => []
  | some last =>
    (rs.filter (fun r => r.stage == last.stage && r.status == Status.Succeeded)).filterMap
      (fun r => r.output.map (fun o => (r.capability, o)))

/-- Modelled from the spec: the OrchestrationResult record. -/
structure OrchestrationResult where
  success : Bool
  output : List (String × String)
  toolsUsed : List String
  processingTimeMs : Nat
  stepResults : List StepResult
deriving DecidableEq

/-- Modelled from the spec: `aggregate(stepResults)`.  `elapsedMs` is the
wall-clock span from Session start to Aggregator completion, measured by the
Session and handed in, so the result is a function of its inputs only. -/
def aggregate (rs : List StepResult) (elapsedMs : Nat) : OrchestrationResult :=
  { success := aggSuccess rs, output := finalOutputs rs,
    toolsUsed := firstSucceeded rs, processingTimeMs := elapsedMs,
    stepResults := rs }

/-- Modelled from the spec: the planning-time error taxonomy entry that is
surfaced to the caller. -/
inductive PlanError
  | UnresolvableRequest
deriving DecidableEq

/-- Modelled from the spec: request options. -/
structure RequestOptions where
  saveResult : Bool
  maxParallelism : Nat
  timeoutMs : Nat
  retries : Nat
deriving DecidableEq

/-- Modelled from the spec: `requestedTools` is a set of capability names or
the marker `"all"`. -/
inductive ReqTools
  | all
  | named (names : List String)
deriving DecidableEq

/-- Modelled from the spec: an accepted, immutable Request. -/
structure Request where
  prompt : String
  context : List (String × String)
  requestedTools : ReqTools
  options : RequestOptions
deriving DecidableEq

/-- Modelled from the spec: `plan(request, registry)`, failing with
`UnresolvableRequest` when `requestedTools` is non-empty, not `"all"`, and
none of the named capabilities are currently available.  The strategy that
builds the plan in the remaining cases is pluggable. -/
def plan (strategy : Request → Registry → Nat → Plan) (req : Request)
    (reg : Registry) (now : Nat) : Except PlanError Plan :=
  match req.requestedTools with
  | .all => .ok (strategy req reg now)
  | .named ns =>
    if ns ≠ [] ∧ ∀ n ∈ ns, n ∉ availableNames reg now then .error .UnresolvableRequest
    else .ok (strategy req reg now)

/-- Modelled from the spec: the states of the Orchestration Session state
machine. -/
inductive SessionState
  | Created
  | Planning
  | Dispatching
  | Aggregating
  | Completed
  | Failed
deriving DecidableEq

/-- Modelled from the spec: one full run of the Orchestration Session,
returning the states traversed in order and the terminal payload.
`startMs`/`endMs` bound the session's wall clock. -/
def runSession (strategy : Request → Registry → Nat → Plan) (req : Request)
    (reg : Registry) (env : Nat → Nat → AttemptOutcome) (startMs endMs : Nat) :
    List SessionState × Except PlanError OrchestrationResult :=
  match plan strategy req reg startMs with
  | .error e => ([.Created, .Planning, .Failed], .error e)
  | .ok p =>
    let rs := (execute p env req.options.retries req.options.timeoutMs startMs reg).1
    ([.Created, .Planning, .Dispatching, .Aggregating, .Completed],
      .ok (aggregate rs (endMs - startMs)))

/-- Modelled from the spec: the StepResults forced by a cancellation —
every step not yet resolved is marked Skipped with reason "cancelled".
The first argument is the global index of the first unresolved step. -/
def cancelSkipped : Nat → List (Nat × Step) → List StepResult
  | _, [] => []
  | startIdx, (si, s) :: rest =>
    skippedResult startIdx si s.capability "cancelled" :: cancelSkipped (startIdx + 1) rest

/-- Modelled from the spec: a session whose `cancel()` arrives during
Dispatching once `k` steps have resolved: the dispatch loop stops, every
remaining step is marked Skipped ("cancelled"), and the session proceeds
through Aggregating to Completed with the StepResults that exist. -/
def runSessionCancelled (strategy : Request → Registry → Nat → Plan)
    (req : Request) (reg : Registry) (env : Nat → Nat → AttemptOutcome)
    (startMs endMs k : Nat) :
    List SessionState × Except PlanError OrchestrationResult :=
  match plan strategy req reg startMs with
  | .error e => ([.Created, .Planning, .Failed], .error e)
  | .ok p =>
    let flat := flattenIdx 0 p
    let done := (execGo env req.options.retries req.options.timeoutMs startMs
      (flat.take k) [] [] reg).1
    let rs := done ++ cancelSkipped done.length (flat.drop k)
    ([.Created, .Planning, .Dispatching, .Aggregating, .Completed],
      .ok (aggregate rs (endMs - startMs)))

/-- A JSON value, as far as the `/orchestrate` handler of `src/index.js`
shapes one. -/
inductive JsonVal
  | null
  | bool (b : Bool)
  | num (n : Nat)
  | str (s : String)
  | arr (xs : List JsonVal)
  | jobj (fields : List (String × JsonVal))

/-- The keys of a JSON object (the empty list for non-objects). -/
def jsonKeys : JsonVal → List String
  | .jobj fs => fs.map (fun f => f.1)
  | _ => []

/-- JavaScript property access `v.k` on an object: `none` plays the role of
`undefined`. -/
def jsGet (v : JsonVal) (k : String) : Option JsonVal :=
  match v with
  | .jobj fs => fs.lookup k
  | _ => none

/-- A JavaScript object literal as `res.json` serialises it: a property
whose value is `undefined` is dropped by `JSON.stringify`. -/
def jsObj (fs : List (String × Option JsonVal)) : JsonVal :=
  .jobj (fs.filterMap (fun f => f.2.map (fun v => (f.1, v))))

/-- An HTTP response: status code and JSON body. -/
structure HttpResponse where
  status : Nat
  body : JsonVal

/-- The success body the `/orchestrate` route sends (`src/index.js` lines
122-130): `res.json({ success: true, result, metadata: { timestamp,
processingTime: result.processingTime, toolsUsed: result.toolsUsed } })`. -/
def orchestrateSuccessBody (result : JsonVal) (ts : String) : JsonVal :=
  jsObj
    [("success", some (.bool true)),
     ("result", some result),
     ("metadata", some (jsObj
        [("timestamp", some (.str ts)),
         ("processingTime", jsGet result "processingTime"),
         ("toolsUsed", jsGet result "toolsUsed")]))]

/-- The body of the `/orchestrate` catch branch (`src/index.js` lines
134-138): `res.status(500).json({ success: false, error: error.message,
timestamp })`. -/
def orchestrateErrorBody (msg ts : String) : JsonVal :=
  .jobj [("success", .bool false), ("error", .str msg), ("timestamp", .str ts)]

/-- The `/orchestrate` handler of `src/index.js` lines 99-140: route the
request, save to Notion when connected, answer 200 with the success body;
any error thrown by routing or saving is caught and answered 500 with the
error's message. -/
def orchestrateHandler (routeOutcome : Except String JsonVal)
    (notionConnected : Bool) (saveOutcome : Except String Unit) (ts : String) :
    HttpResponse :=
  match routeOutcome with
  | .error e => { status := 500, body := orchestrateErrorBody e ts }
  | .ok result =>
    if notionConnected then
      match saveOutcome with
      | .error e => { status := 500, body := orchestrateErrorBody e ts }
      | .ok _ => { status := 200, body := orchestrateSuccessBody result ts }
    else { status := 200, body := orchestrateSuccessBody result ts }

/-- A healthy inference capability for concrete evaluations. -/
def demoInference : Capability :=
  { name := "inference", kind := .Inference,
    health := { available := true, consecutiveFailures := 0, cooldownUntil := none } }

/-- A healthy execution capability for concrete evaluations. -/
def demoExecution : Capability :=
  { name := "execution", kind := .Execution,
    health := { available := true, consecutiveFailures := 0, cooldownUntil := none } }

/-- A small registry for concrete evaluations: inference and execution, both
healthy, with the default breaker configuration. -/
def demoReg : Registry :=
  { caps := [demoInference, demoExecution], threshold := 3, maxBackoffMs := 300000 }

/-- A two-stage plan: inference, then execution consuming step 0's output. -/
def demoPlan : Plan :=
  [[{ capability := "inference", input := "prompt", dependsOnOutputOf := none }],
   [{ capability := "execution", input := "code", dependsOnOutputOf := some 0 }]]

/-- An environment in which every attempt succeeds at once. -/
def demoEnvOk : Nat → Nat → AttemptOutcome := fun _ _ => .succeed "ok" 1

/-- An environment in which every attempt fails with a validation error. -/
def demoEnvBad : Nat → Nat → AttemptOutcome := fun _ _ => .validationErr "bad input" 1

/-- A request naming only the storage capability. -/
def demoStorageReq : Request :=
  { prompt := "persist this", context := [], requestedTools := .named ["storage"],
    options := { saveResult := true, maxParallelism := 2, timeoutMs := 30000, retries := 2 } }

/-- A request for all capabilities. -/
def demoAllReq : Request :=
  { prompt := "add two numbers and run it", context := [], requestedTools := .all,
    options := { saveResult := false, maxParallelism := 2, timeoutMs := 30000, retries := 2 } }

/-- A strategy that always proposes the demo plan. -/
def demoStrategy : Request → Registry → Nat → Plan := fun _ _ _ => demoPlan

end Apex

namespace Apex

/-! ### Registry lemmas -/

theorem applyOutcome_name (threshold maxMs : Nat) (x : String) (b : Bool)
    (t : Nat) (c : Capability) :
    (applyOutcome threshold maxMs x b t c).name = c.name := by
  simp only [applyOutcome]
  repeat' split
  all_goals rfl

theorem applyOutcome_kind (threshold maxMs : Nat) (x : String) (b : Bool)
    (t : Nat) (c : Capability) :
    (applyOutcome threshold maxMs x b t c).kind = c.kind := by
  simp only [applyOutcome]
  repeat' split
  all_goals rfl

theorem applyOutcome_other (threshold maxMs : Nat) (x : String) (b : Bool)
    (t : Nat) (c : Capability) (h : c.name ≠ x) :
    applyOutcome threshold maxMs x b t c = c := by
  simp [applyOutcome, h]

theorem applyOutcome_fail_cf (threshold maxMs : Nat) (x : String) (t : Nat)
    (c : Capability) (h : c.name = x) :
    (applyOutcome threshold maxMs x false t c).health.consecutiveFailures =
      c.health.consecutiveFailures + 1 := by
  simp only [applyOutcome, if_pos h, Bool.false_eq_true, if_false]
  split
  all_goals rfl

theorem applyOutcome_fail_trigger (threshold maxMs : Nat) (x : String) (t : Nat)
    (c : Capability) (h : c.name = x)
    (ht : threshold ≤ c.health.consecutiveFailures + 1) :
    (applyOutcome threshold maxMs x false t c).health =
      { available := false,
        consecutiveFailures := c.health.consecutiveFailures + 1,
        cooldownUntil := some (t + backoff (c.health.consecutiveFailures + 1) maxMs) } := by
  simp [applyOutcome, h, ht]

theorem applyOutcome_success_health (threshold maxMs : Nat) (x : String) (t : Nat)
    (c : Capability) (h : c.name = x) :
    (applyOutcome threshold maxMs x true t c).health =
      { c.health with consecutiveFailures := 0, cooldownUntil := none } := by
  simp [applyOutcome, h]

/-- The health of a capability named `x` after three consecutive recorded
failures: the last failure is at least the third in a row, so the circuit is
open with `cooldownUntil = t + backoff (cf + 3)`. -/
theorem applyFail3_health (maxMs : Nat) (x : String) (t : Nat) (c : Capability)
    (h : c.name = x) :
    (applyOutcome 3 maxMs x false t (applyOutcome 3 maxMs x false t
        (applyOutcome 3 maxMs x false t c))).health =
      { available := false,
        consecutiveFailures := c.health.consecutiveFailures + 3,
        cooldownUntil := some (t + backoff (c.health.consecutiveFailures + 3) maxMs) } := by
  have h1n : (applyOutcome 3 maxMs x false t c).name = x := by
    rw [applyOutcome_name]; exact h
  have h1cf := applyOutcome_fail_cf 3 maxMs x t c h
  have h2n : (applyOutcome 3 maxMs x false t (applyOutcome 3 maxMs x false t c)).name = x := by
    rw [applyOutcome_name]; exact h1n
  have h2cf := applyOutcome_fail_cf 3 maxMs x t (applyOutcome 3 maxMs x false t c) h1n
  rw [h1cf] at h2cf
  rw [applyOutcome_fail_trigger 3 maxMs x t _ h2n (by omega), h2cf]

theorem recordOutcome_threshold (reg : Registry) (x : String) (b : Bool) (t : Nat) :
    (recordOutcome reg x b t).threshold = reg.threshold := rfl

theorem failThrice_caps (reg : Registry) (x : String) (t : Nat) :
    (failThrice reg x t).caps = reg.caps.map (fun c =>
      applyOutcome reg.threshold reg.maxBackoffMs x false t
        (applyOutcome reg.threshold reg.maxBackoffMs x false t
          (applyOutcome reg.threshold reg.maxBackoffMs x false t c))) := by
  simp [failThrice, recordOutcome, List.map_map]

end Apex

namespace Apex

/-! ### C3: the Registry circuit breaker -/

/-- Claim C3: for every capability X in the Registry, after
`recordOutcome(X, false)` has been called 3 times consecutively (the default
threshold) with no intervening success, `listAvailable()` excludes X until
its `cooldownUntil` timestamp elapses; and a single `recordOutcome(X, true)`
resets X's `consecutiveFailures` to 0 and clears `cooldownUntil`. -/
theorem registry_circuit_breaker (reg : Registry) (c : Capability) (x : String)
    (t t2 now now2 : Nat)
    (hmem : c ∈ reg.caps) (hname : c.name = x)
    (hnd : (reg.caps.map (fun d => d.name)).Nodup)
    (hthr : reg.threshold = 3) (hmax : reg.maxBackoffMs = 300000)
    (hnow : now < t + backoff (c.health.consecutiveFailures + 3) 300000)
    (hnow2 : t + backoff (c.health.consecutiveFailures + 3) 300000 ≤ now2) :
    (∀ d ∈ (failThrice reg x t).caps, d.name = x →
        d.health.consecutiveFailures = c.health.consecutiveFailures + 3 ∧
        d.health.cooldownUntil =
          some (t + backoff (c.health.consecutiveFailures + 3) 300000)) ∧
    (∀ d ∈ listAvailable (failThrice reg x t) now, d.name ≠ x) ∧
    (∃ d ∈ listAvailable (failThrice reg x t) now2, d.name = x) ∧
    (∀ d ∈ (recordOutcome (failThrice reg x t) x true t2).caps, d.name = x →
        d.health.consecutiveFailures = 0 ∧ d.health.cooldownUntil = none) := by
  have hcaps : (failThrice reg x t).caps = reg.caps.map (fun e =>
      applyOutcome 3 300000 x false t (applyOutcome 3 300000 x false t
        (applyOutcome 3 300000 x false t e))) := by
    rw [failThrice_caps, hthr, hmax]
  have hG : ∀ d ∈ (failThrice reg x t).caps, d.name = x →
      d.health = ⟨false, c.health.consecutiveFailures + 3,
        some (t + backoff (c.health.consecutiveFailures + 3) 300000)⟩ := by
    intro d hd hdx
    rw [hcaps] at hd
    obtain ⟨e, he, rfl⟩ := List.mem_map.mp hd
    have hen : e.name = x := by
      rw [applyOutcome_name, applyOutcome_name, applyOutcome_name] at hdx
      exact hdx
    have hec : e = c := List.inj_on_of_nodup_map hnd he hmem (by rw [hen, hname])
    subst hec
    exact applyFail3_health 300000 x t e hen
  refine ⟨?_, ?_, ?_, ?_⟩
  · intro d hd hdx
    constructor <;> rw [hG d hd hdx]
  · intro d hd hdx
    simp only [listAvailable] at hd
    have hd' := List.mem_filter.mp hd
    have hh := hG d hd'.1 hdx
    have hpass := hd'.2
    rw [hh] at hpass
    simp only [cooldownPassed, decide_eq_true_eq] at hpass
    omega
  · refine ⟨applyOutcome 3 300000 x false t (applyOutcome 3 300000 x false t
      (applyOutcome 3 300000 x false t c)), ?_, ?_⟩
    · have hmem3 : applyOutcome 3 300000 x false t (applyOutcome 3 300000 x false t
          (applyOutcome 3 300000 x false t c)) ∈ (failThrice reg x t).caps := by
        rw [hcaps]
        exact List.mem_map_of_mem _ hmem
      have hh := applyFail3_health 300000 x t c hname
      simp only [listAvailable]
      refine List.mem_filter.mpr ⟨hmem3, ?_⟩
      rw [hh]
      simp only [cooldownPassed, decide_eq_true_eq]
      exact hnow2
    · rw [applyOutcome_name, applyOutcome_name, applyOutcome_name]
      exact hname
  · intro d hd hdx
    have hd2 : d ∈ (failThrice reg x t).caps.map
        (applyOutcome (failThrice reg x t).threshold
          (failThrice reg x t).maxBackoffMs x true t2) := hd
    obtain ⟨e, he, rfl⟩ := List.mem_map.mp hd2
    have hen : e.name = x := by
      rw [applyOutcome_name] at hdx
      exact hdx
    have hh := applyOutcome_success_health (failThrice reg x t).threshold
      (failThrice reg x t).maxBackoffMs x t2 e hen
    constructor <;> rw [hh]

/-- Claim C3, witnessed on the demo registry: three failures of
"inference" at time 0 open the breaker until time 8000; one success resets
it. -/
theorem registry_circuit_breaker_witness :
    (∀ d ∈ (failThrice demoReg "inference" 0).caps, d.name = "inference" →
        d.health.consecutiveFailures = demoInference.health.consecutiveFailures + 3 ∧
        d.health.cooldownUntil =
          some (0 + backoff (demoInference.health.consecutiveFailures + 3) 300000)) ∧
    (∀ d ∈ listAvailable (failThrice demoReg "inference" 0) 7999, d.name ≠ "inference") ∧
    (∃ d ∈ listAvailable (failThrice demoReg "inference" 0) 8000, d.name = "inference") ∧
    (∀ d ∈ (recordOutcome (failThrice demoReg "inference" 0) "inference" true 9000).caps,
        d.name = "inference" →
        d.health.consecutiveFailures = 0 ∧ d.health.cooldownUntil = none) :=
  registry_circuit_breaker demoReg demoInference "inference" 0 9000 7999 8000
    (by decide) (by decide) (by decide) (by decide) (by decide) (by decide) (by decide)

end Apex

namespace Apex

/-! ### C8: the Aggregator is a pure function of the StepResult sequence -/

/-- Claim C8: aggregating the StepResult sequence recorded by a previous
`aggregate` call, with the same session timing, reproduces that call's
OrchestrationResult field for field — `aggregate` depends on nothing but the
StepResult sequence and the session's wall-clock span, so a second call on
the same sequence yields an identical OrchestrationResult, including
`processingTimeMs`. -/
theorem aggregate_idempotent (rs : List StepResult) (elapsedMs : Nat) :
    aggregate (aggregate rs elapsedMs).stepResults elapsedMs = aggregate rs elapsedMs := rfl

/-! ### C9 and C10: the `/orchestrate` handler of `src/index.js` -/

/-- Claim C9, refuted: the successful `/orchestrate` response does not
expose the fields `output`, `toolsUsed` and `processingTimeMs` at top
level; its top-level fields are `success`, `result` and `metadata`
(`src/index.js` lines 122-130). -/
theorem orchestrate_response_shape_cex :
    jsonKeys (orchestrateSuccessBody
        (.jobj [("processingTime", .num 5), ("toolsUsed", .arr [])]) "2026-01-01") =
      ["success", "result", "metadata"] ∧
    "output" ∉ jsonKeys (orchestrateSuccessBody
        (.jobj [("processingTime", .num 5), ("toolsUsed", .arr [])]) "2026-01-01") ∧
    "processingTimeMs" ∉ jsonKeys (orchestrateSuccessBody
        (.jobj [("processingTime", .num 5), ("toolsUsed", .arr [])]) "2026-01-01") ∧
    "toolsUsed" ∉ jsonKeys (orchestrateSuccessBody
        (.jobj [("processingTime", .num 5), ("toolsUsed", .arr [])]) "2026-01-01") := by
  refine ⟨rfl, ?_, ?_, ?_⟩ <;> decide

/-- Claim C9 as amended: every successful `/orchestrate` response has
exactly the top-level fields `success`, `result` and `metadata`, and its
`metadata` object carries `timestamp`, `processingTime` (the router result's
`processingTime`) and `toolsUsed` (the router result's `toolsUsed`). -/
theorem orchestrate_response_shape (result pt tu : JsonVal) (ts : String)
    (saveOutcome : Except String Unit) :
    jsonKeys (orchestrateHandler (.ok result) false saveOutcome ts).body =
      ["success", "result", "metadata"] ∧
    jsonKeys (orchestrateHandler (.ok result) true (.ok ()) ts).body =
      ["success", "result", "metadata"] ∧
    (jsGet (orchestrateSuccessBody
        (.jobj [("processingTime", pt), ("toolsUsed", tu)]) ts) "metadata").map jsonKeys =
      some ["timestamp", "processingTime", "toolsUsed"] := by
  refine ⟨rfl, rfl, rfl⟩

/-- Claim C10: the `/orchestrate` handler answers 500 with
`success = false` and the thrown error's message whenever routing or the
Notion save throws, and 200 with `success = true` otherwise; the handler is
total, so no error escapes it (`src/index.js` lines 99-140). -/
theorem orchestrate_handler_catches_errors (v : JsonVal) (m ts : String)
    (conn : Bool) (saveOutcome : Except String Unit) :
    (orchestrateHandler (.error m) conn saveOutcome ts).status = 500 ∧
    jsGet (orchestrateHandler (.error m) conn saveOutcome ts).body "success" =
      some (.bool false) ∧
    jsGet (orchestrateHandler (.error m) conn saveOutcome ts).body "error" =
      some (.str m) ∧
    (orchestrateHandler (.ok v) true (.error m) ts).status = 500 ∧
    jsGet (orchestrateHandler (.ok v) true (.error m) ts).body "success" =
      some (.bool false) ∧
    jsGet (orchestrateHandler (.ok v) true (.error m) ts).body "error" =
      some (.str m) ∧
    (orchestrateHandler (.ok v) false saveOutcome ts).status = 200 ∧
    jsGet (orchestrateHandler (.ok v) false saveOutcome ts).body "success" =
      some (.bool true) ∧
    (orchestrateHandler (.ok v) true (.ok ()) ts).status = 200 ∧
    jsGet (orchestrateHandler (.ok v) true (.ok ()) ts).body "success" =
      some (.bool true) := by
  refine ⟨rfl, rfl, rfl, rfl, rfl, rfl, rfl, rfl, rfl, rfl⟩

end Apex

namespace Apex

/-! ### Dispatcher lemmas -/

/-- One cons step of the Dispatcher loop: whatever branch is taken, exactly
one StepResult (whose global index is `acc.length`) is appended, and the
invocation log grows by at most the entry `acc.length`. -/
theorem execGo_step_cons (env : Nat → Nat → AttemptOutcome)
    (retries timeoutMs now si0 : Nat) (s0 : Step) (rest : List (Nat × Step))
    (acc : List StepResult) (inv : List Nat) (reg : Registry) :
    ∃ r0 inv' reg',
      execGo env retries timeoutMs now ((si0, s0) :: rest) acc inv reg =
        execGo env retries timeoutMs now rest (acc ++ [r0]) inv' reg' ∧
      r0.stepIdx = acc.length ∧
      ∀ e ∈ inv', e ∈ inv ∨ e = acc.length := by
  simp only [execGo]
  split
  · split
    · refine ⟨_, _, _, rfl, rfl, ?_⟩
      intro e he
      rcases List.mem_append.mp he with h | h
      · exact Or.inl h
      · right
        simpa using h
    · exact ⟨_, _, _, rfl, rfl, fun e he => Or.inl he⟩
  · exact ⟨_, _, _, rfl, rfl, fun e he => Or.inl he⟩

/-- The Dispatcher loop appends exactly one StepResult per remaining step. -/
theorem execGo_length (env : Nat → Nat → AttemptOutcome) (retries timeoutMs now : Nat) :
    ∀ (l : List (Nat × Step)) (acc : List StepResult) (inv : List Nat) (reg : Registry),
      ((execGo env retries timeoutMs now l acc inv reg).1).length = acc.length + l.length := by
  intro l
  induction l with
  | nil =>
    intro acc inv reg
    simp [execGo]
  | cons hd rest ih =>
    intro acc inv reg
    obtain ⟨si0, s0⟩ := hd
    obtain ⟨r0, inv', reg', heq, hr0, hinv'⟩ :=
      execGo_step_cons env retries timeoutMs now si0 s0 rest acc inv reg
    rw [heq, ih]
    simp only [List.length_append, List.length_cons, List.length_nil]
    omega

/-- Already-collected StepResults are never revisited by the loop. -/
theorem execGo_getElem_lt (env : Nat → Nat → AttemptOutcome) (retries timeoutMs now : Nat) :
    ∀ (l : List (Nat × Step)) (acc : List StepResult) (inv : List Nat) (reg : Registry)
      (j : Nat), j < acc.length →
      ((execGo env retries timeoutMs now l acc inv reg).1)[j]? = acc[j]? := by
  intro l
  induction l with
  | nil =>
    intro acc inv reg j hj
    simp [execGo]
  | cons hd rest ih =>
    intro acc inv reg j hj
    obtain ⟨si0, s0⟩ := hd
    obtain ⟨r0, inv', reg', heq, hr0, hinv'⟩ :=
      execGo_step_cons env retries timeoutMs now si0 s0 rest acc inv reg
    rw [heq, ih _ _ _ j (by simp only [List.length_append, List.length_cons, List.length_nil]; omega)]
    rw [List.getElem?_append]
    simp [hj]

/-- The global indices of the collected StepResults, in order. -/
theorem execGo_map_stepIdx (env : Nat → Nat → AttemptOutcome) (retries timeoutMs now : Nat) :
    ∀ (l : List (Nat × Step)) (acc : List StepResult) (inv : List Nat) (reg : Registry),
      ((execGo env retries timeoutMs now l acc inv reg).1).map (fun r => r.stepIdx) =
        (acc.map (fun r => r.stepIdx)) ++ List.range' acc.length l.length := by
  intro l
  induction l with
  | nil =>
    intro acc inv reg
    simp [execGo]
  | cons hd rest ih =>
    intro acc inv reg
    obtain ⟨si0, s0⟩ := hd
    obtain ⟨r0, inv', reg', heq, hr0, hinv'⟩ :=
      execGo_step_cons env retries timeoutMs now si0 s0 rest acc inv reg
    rw [heq, ih]
    simp [List.map_append, hr0, List.range'_succ, List.length_append]

/-- Every invocation-log entry is either inherited or names a step whose
result was not yet collected when the loop was entered. -/
theorem execGo_inv_mem (env : Nat → Nat → AttemptOutcome) (retries timeoutMs now : Nat) :
    ∀ (l : List (Nat × Step)) (acc : List StepResult) (inv : List Nat) (reg : Registry)
      (e : Nat), e ∈ (execGo env retries timeoutMs now l acc inv reg).2.1 →
      e ∈ inv ∨ acc.length ≤ e := by
  intro l
  induction l with
  | nil =>
    intro acc inv reg e he
    simp only [execGo] at he
    exact Or.inl he
  | cons hd rest ih =>
    intro acc inv reg e he
    obtain ⟨si0, s0⟩ := hd
    obtain ⟨r0, inv', reg', heq, hr0, hinv'⟩ :=
      execGo_step_cons env retries timeoutMs now si0 s0 rest acc inv reg
    rw [heq] at he
    rcases ih _ _ _ e he with h | h
    · rcases hinv' e h with h' | h'
      · exact Or.inl h'
      · right
        omega
    · right
      simp only [List.length_append, List.length_cons, List.length_nil] at h
      omega

/-- The dependency pre-check forces a Skip: if the step at relative position
`k` depends on an already-collected StepResult that is not Succeeded, its
own StepResult is Skipped ("upstream failure") and its index never enters
the invocation log. -/
theorem execGo_dep_skip (env : Nat → Nat → AttemptOutcome) (retries timeoutMs now : Nat) :
    ∀ (l : List (Nat × Step)) (acc : List StepResult) (inv : List Nat) (reg : Registry)
      (k j si : Nat) (s : Step),
      l[k]? = some (si, s) →
      s.dependsOnOutputOf = some j →
      j < acc.length + k →
      (∀ e ∈ inv, e < acc.length) →
      ((execGo env retries timeoutMs now l acc inv reg).1[j]?).map (fun r => r.status) ≠
        some Status.Succeeded →
      (execGo env retries timeoutMs now l acc inv reg).1[acc.length + k]? =
          some (skippedResult (acc.length + k) si s.capability "upstream failure") ∧
        (acc.length + k) ∉ (execGo env retries timeoutMs now l acc inv reg).2.1 := by
  intro l
  induction l with
  | nil =>
    intro acc inv reg k j si s hk
    simp at hk
  | cons hd rest ih =>
    intro acc inv reg k j si s hk hdep hj hinv hfail
    obtain ⟨si0, s0⟩ := hd
    match k with
    | 0 =>
      simp only [List.getElem?_cons_zero, Option.some.injEq, Prod.mk.injEq] at hk
      obtain ⟨rfl, rfl⟩ := hk
      have hjlt : j < acc.length := by omega
      have hstable := execGo_getElem_lt env retries timeoutMs now ((si0, s0) :: rest)
        acc inv reg j hjlt
      rw [hstable] at hfail
      have hjget : acc[j]? = some (acc[j]) := List.getElem?_eq_getElem hjlt
      rw [hjget] at hfail
      have hstatus : (acc[j]).status ≠ Status.Succeeded := by
        simpa using hfail
      have hds : depSatisfied s0 acc = false := by
        simp only [depSatisfied, hdep, hjget]
        simpa using hstatus
      simp only [execGo, hds, Bool.false_eq_true, if_false]
      constructor
      · have hg := execGo_getElem_lt env retries timeoutMs now rest
          (acc ++ [skippedResult acc.length si0 s0.capability "upstream failure"]) inv reg
          acc.length (by simp)
        rw [Nat.add_zero, hg, List.getElem?_append_right (Nat.le_refl acc.length)]
        simp
      · intro hmem
        rcases execGo_inv_mem env retries timeoutMs now rest _ inv reg _ hmem with h | h
        · have := hinv _ h
          omega
        · simp only [List.length_append, List.length_cons, List.length_nil] at h
          omega
    | k' + 1 =>
      have hk' : rest[k']? = some (si, s) := by simpa using hk
      obtain ⟨r0, inv', reg', heq, hr0, hinv'⟩ :=
        execGo_step_cons env retries timeoutMs now si0 s0 rest acc inv reg
      rw [heq] at hfail ⊢
      have hidx : acc.length + (k' + 1) = (acc ++ [r0]).length + k' := by
        simp only [List.length_append, List.length_cons, List.length_nil]
        omega
      rw [hidx]
      refine ih _ _ _ k' j si s hk' hdep ?_ ?_ hfail
      · simp only [List.length_append, List.length_cons, List.length_nil]
        omega
      · intro e he
        rcases hinv' e he with h | h
        · have := hinv e h
          simp only [List.length_append, List.length_cons, List.length_nil]
          omega
        · simp only [List.length_append, List.length_cons, List.length_nil]
          omega

theorem flattenIdx_length : ∀ (si : Nat) (p : Plan), (flattenIdx si p).length = planSize p := by
  intro si p
  induction p generalizing si with
  | nil => simp [flattenIdx, planSize]
  | cons stage rest ih =>
    simp [flattenIdx, planSize, ih, List.sum_cons]

end Apex

namespace Apex

/-! ### C1: one terminal StepResult per step -/

/-- Claim C1: for every Plan with at least one stage, the StepResult
sequence returned by the Dispatcher has exactly one terminal StepResult —
Succeeded, Failed, TimedOut or Skipped — per step of the Plan: its length
is the Plan's total step count, the step indices come out in plan order
with no duplicates or gaps, and retry attempts never add StepResults. -/
theorem dispatcher_one_result_per_step (p : Plan) (env : Nat → Nat → AttemptOutcome)
    (retries timeoutMs now : Nat) (reg : Registry) (_hp : p ≠ []) :
    (execute p env retries timeoutMs now reg).1.length = planSize p ∧
    (execute p env retries timeoutMs now reg).1.map (fun r => r.stepIdx) =
      List.range (planSize p) ∧
    ∀ r ∈ (execute p env retries timeoutMs now reg).1,
      r.status = Status.Succeeded ∨ r.status = Status.Failed ∨
        r.status = Status.TimedOut ∨ r.status = Status.Skipped := by
  refine ⟨?_, ?_, ?_⟩
  · simp only [execute]
    rw [execGo_length env retries timeoutMs now (flattenIdx 0 p) [] [] reg]
    simp [flattenIdx_length]
  · simp only [execute]
    rw [execGo_map_stepIdx env retries timeoutMs now (flattenIdx 0 p) [] [] reg]
    simp [List.range_eq_range', flattenIdx_length]
  · intro r _
    cases hs : r.status
    · exact Or.inl rfl
    · exact Or.inr (Or.inl rfl)
    · exact Or.inr (Or.inr (Or.inr rfl))
    · exact Or.inr (Or.inr (Or.inl rfl))

/-- Claim C1, witnessed on the concrete two-stage demo plan. -/
theorem dispatcher_one_result_per_step_witness :
    (execute demoPlan demoEnvOk 2 30000 0 demoReg).1.length = planSize demoPlan ∧
    (execute demoPlan demoEnvOk 2 30000 0 demoReg).1.map (fun r => r.stepIdx) =
      List.range (planSize demoPlan) ∧
    ∀ r ∈ (execute demoPlan demoEnvOk 2 30000 0 demoReg).1,
      r.status = Status.Succeeded ∨ r.status = Status.Failed ∨
        r.status = Status.TimedOut ∨ r.status = Status.Skipped :=
  dispatcher_one_result_per_step demoPlan demoEnvOk 2 30000 0 demoReg (by decide)

/-! ### C4: upstream failure forces a Skip, never an attempt -/

/-- Claim C4: a step whose `dependsOnOutputOf` references a prior step whose
StepResult is not Succeeded is never attempted — its index never enters the
invocation log — and its terminal StepResult is Skipped with reason
"upstream failure". -/
theorem dispatcher_upstream_skip (p : Plan) (env : Nat → Nat → AttemptOutcome)
    (retries timeoutMs now : Nat) (reg : Registry) (i j si : Nat) (s : Step)
    (hstep : (flattenIdx 0 p)[i]? = some (si, s))
    (hdep : s.dependsOnOutputOf = some j)
    (hji : j < i)
    (hfail : ((execute p env retries timeoutMs now reg).1[j]?).map (fun r => r.status) ≠
      some Status.Succeeded) :
    (execute p env retries timeoutMs now reg).1[i]? =
        some (skippedResult i si s.capability "upstream failure") ∧
      i ∉ (execute p env retries timeoutMs now reg).2.1 := by
  simp only [execute] at hfail ⊢
  have h := execGo_dep_skip env retries timeoutMs now (flattenIdx 0 p) [] [] reg i j si s
    hstep hdep (by simpa using hji) (by simp) hfail
  simpa using h

/-- Claim C4, witnessed: with every attempt failing validation, step 1 of
the demo plan (which depends on step 0) is Skipped ("upstream failure") and
never invoked. -/
theorem dispatcher_upstream_skip_witness :
    (execute demoPlan demoEnvBad 2 30000 0 demoReg).1[1]? =
        some (skippedResult 1 1 "execution" "upstream failure") ∧
      1 ∉ (execute demoPlan demoEnvBad 2 30000 0 demoReg).2.1 :=
  dispatcher_upstream_skip demoPlan demoEnvBad 2 30000 0 demoReg 1 0 1
    { capability := "execution", input := "code", dependsOnOutputOf := some 0 }
    (by decide) rfl (by decide) (by decide)

end Apex

namespace Apex

/-! ### Aggregator lemmas -/

theorem mem_firstSucceeded (rs : List StepResult) (x : String) :
    x ∈ firstSucceeded rs ↔ ∃ r ∈ rs, r.capability = x ∧ r.status = Status.Succeeded := by
  induction rs with
  | nil => simp [firstSucceeded]
  | cons r rest ih =>
    by_cases h : r.status = Status.Succeeded
    · simp only [firstSucceeded, if_pos h]
      constructor
      · intro hx
        rcases List.mem_cons.mp hx with h1 | h1
        · exact ⟨r, List.mem_cons_self r rest, h1.symm, h⟩
        · obtain ⟨r', hr', hc, hs⟩ := ih.mp (List.mem_filter.mp h1).1
          exact ⟨r', List.mem_cons_of_mem r hr', hc, hs⟩
      · rintro ⟨r', hr', hc, hs⟩
        rcases List.mem_cons.mp hr' with rfl | hr'
        · rw [hc]
          exact List.mem_cons_self _ _
        · by_cases hx : x = r.capability
          · rw [hx]
            exact List.mem_cons_self _ _
          · refine List.mem_cons_of_mem _ (List.mem_filter.mpr ⟨ih.mpr ⟨r', hr', hc, hs⟩, ?_⟩)
            simpa [bne_iff_ne] using hx
    · simp only [firstSucceeded, if_neg h]
      rw [ih]
      constructor
      · rintro ⟨r', hr', hc, hs⟩
        exact ⟨r', List.mem_cons_of_mem r hr', hc, hs⟩
      · rintro ⟨r', hr', hc, hs⟩
        rcases List.mem_cons.mp hr' with rfl | hr'
        · exact absurd hs h
        · exact ⟨r', hr', hc, hs⟩

theorem nodup_firstSucceeded (rs : List StepResult) : (firstSucceeded rs).Nodup := by
  induction rs with
  | nil => simp [firstSucceeded]
  | cons r rest ih =>
    by_cases h : r.status = Status.Succeeded
    · simp only [firstSucceeded, if_pos h]
      refine List.nodup_cons.mpr ⟨?_, List.Nodup.filter _ ih⟩
      intro hmem
      have := (List.mem_filter.mp hmem).2
      simp at this
    · simpa [firstSucceeded, if_neg h] using ih

theorem firstSuccessIdx_cons_self (r : StepResult) (rest : List StepResult)
    (h : r.status = Status.Succeeded) :
    firstSuccessIdx (r :: rest) r.capability = 0 := by
  simp [firstSuccessIdx, List.findIdx_cons, h]

theorem firstSuccessIdx_cons_other (r : StepResult) (rest : List StepResult)
    (x : String) (h : r.capability = x → r.status ≠ Status.Succeeded) :
    firstSuccessIdx (r :: rest) x = firstSuccessIdx rest x + 1 := by
  by_cases hc : r.capability = x
  · have hs : (r.status == Status.Succeeded) = false := beq_eq_false_iff_ne.mpr (h hc)
    simp [firstSuccessIdx, List.findIdx_cons, hc, hs]
  · have hb : (r.capability == x) = false := beq_eq_false_iff_ne.mpr hc
    simp [firstSuccessIdx, List.findIdx_cons, hb]

theorem pairwise_firstSucceeded (rs : List StepResult) :
    (firstSucceeded rs).Pairwise
      (fun a b => firstSuccessIdx rs a < firstSuccessIdx rs b) := by
  induction rs with
  | nil => simp [firstSucceeded]
  | cons r rest ih =>
    by_cases h : r.status = Status.Succeeded
    · simp only [firstSucceeded, if_pos h]
      refine List.Pairwise.cons ?_ ?_
      · intro b hb
        have hbne : b ≠ r.capability := by
          have := (List.mem_filter.mp hb).2
          simpa [bne_iff_ne] using this
        rw [firstSuccessIdx_cons_self r rest h,
          firstSuccessIdx_cons_other r rest b (fun hc => absurd hc.symm hbne)]
        omega
      · have hp : ((firstSucceeded rest).filter (fun n => n != r.capability)).Pairwise
            (fun a b => firstSuccessIdx rest a < firstSuccessIdx rest b) :=
          List.Pairwise.sublist (List.filter_sublist _) ih
        refine List.Pairwise.imp_of_mem ?_ hp
        intro a b ha hb hab
        have hane : a ≠ r.capability := by
          have := (List.mem_filter.mp ha).2
          simpa [bne_iff_ne] using this
        have hbne : b ≠ r.capability := by
          have := (List.mem_filter.mp hb).2
          simpa [bne_iff_ne] using this
        rw [firstSuccessIdx_cons_other r rest a (fun hc => absurd hc.symm hane),
          firstSuccessIdx_cons_other r rest b (fun hc => absurd hc.symm hbne)]
        omega
    · have hflat : firstSucceeded (r :: rest) = firstSucceeded rest := by
        simp [firstSucceeded, if_neg h]
      rw [hflat]
      refine List.Pairwise.imp_of_mem ?_ ih
      intro a b ha hb hab
      rw [firstSuccessIdx_cons_other r rest a (fun _ => h),
        firstSuccessIdx_cons_other r rest b (fun _ => h)]
      omega

end Apex

namespace Apex

/-! ### C2: the toolsUsed invariant -/

/-- Claim C2: `toolsUsed` of an aggregated OrchestrationResult contains a
capability name iff at least one StepResult for that capability has status
Succeeded; the list has no duplicates and is ordered by the position of each
capability's first Succeeded StepResult. -/
theorem aggregator_toolsUsed_characterization (rs : List StepResult) (elapsedMs : Nat) :
    (∀ x, x ∈ (aggregate rs elapsedMs).toolsUsed ↔
      ∃ r ∈ rs, r.capability = x ∧ r.status = Status.Succeeded) ∧
    (aggregate rs elapsedMs).toolsUsed.Nodup ∧
    (aggregate rs elapsedMs).toolsUsed.Pairwise
      (fun a b => firstSuccessIdx rs a < firstSuccessIdx rs b) :=
  ⟨fun x => mem_firstSucceeded rs x, nodup_firstSucceeded rs, pairwise_firstSucceeded rs⟩

/-! ### C5: success reflects the final stage -/

/-- Claim C5: an aggregated OrchestrationResult has `success = true` iff at
least one StepResult of the final stage is Succeeded; and when no step
succeeded at all, the result is `success = false` with the complete
StepResult sequence still attached. -/
theorem aggregator_success_iff_final_stage (rs : List StepResult) (elapsedMs : Nat) :
    ((aggregate rs elapsedMs).success = true ↔
      ∃ r ∈ rs, some r.stage = finalStageOf rs ∧ r.status = Status.Succeeded) ∧
    ((∀ r ∈ rs, r.status ≠ Status.Succeeded) →
      (aggregate rs elapsedMs).success = false ∧
        (aggregate rs elapsedMs).stepResults = rs) := by
  constructor
  · show aggSuccess rs = true ↔ _
    cases hlast : rs.getLast? with
    | none => simp [aggSuccess, hlast, finalStageOf]
    | some last =>
      simp only [aggSuccess, hlast, finalStageOf, List.any_eq_true, Bool.and_eq_true,
        beq_iff_eq, Option.map_some', Option.some.injEq]
  · intro hno
    refine ⟨?_, rfl⟩
    show aggSuccess rs = false
    cases hlast : rs.getLast? with
    | none => simp [aggSuccess, hlast]
    | some last =>
      simp only [aggSuccess, hlast, List.any_eq_false, Bool.and_eq_true, beq_iff_eq, not_and]
      intro r hr _
      exact hno r hr

/-! ### C6: an unresolvable request fails during planning -/

/-- Claim C6: a Request whose `requestedTools` is non-empty, not `"all"`,
and names only capabilities that are not currently available makes the
Planner fail with `UnresolvableRequest`; the Session runs
Created → Planning → Failed and never enters Dispatching. -/
theorem planner_unresolvable_fails_session (strategy : Request → Registry → Nat → Plan)
    (req : Request) (reg : Registry) (env : Nat → Nat → AttemptOutcome)
    (startMs endMs : Nat) (ns : List String)
    (htools : req.requestedTools = ReqTools.named ns)
    (hne : ns ≠ [])
    (hnone : ∀ n ∈ ns, n ∉ availableNames reg startMs) :
    runSession strategy req reg env startMs endMs =
      ([SessionState.Created, SessionState.Planning, SessionState.Failed],
        Except.error PlanError.UnresolvableRequest) ∧
    SessionState.Dispatching ∉ (runSession strategy req reg env startMs endMs).1 := by
  have hplan : plan strategy req reg startMs = Except.error PlanError.UnresolvableRequest := by
    simp only [plan, htools]
    rw [if_pos ⟨hne, hnone⟩]
  constructor
  · simp only [runSession, hplan]
  · simp only [runSession, hplan]
    decide

/-- Claim C6, witnessed: requesting only the unregistered "storage"
capability fails the demo session during planning. -/
theorem planner_unresolvable_fails_session_witness :
    runSession demoStrategy demoStorageReq demoReg demoEnvOk 0 5 =
      ([SessionState.Created, SessionState.Planning, SessionState.Failed],
        Except.error PlanError.UnresolvableRequest) ∧
    SessionState.Dispatching ∉ (runSession demoStrategy demoStorageReq demoReg demoEnvOk 0 5).1 :=
  planner_unresolvable_fails_session demoStrategy demoStorageReq demoReg demoEnvOk 0 5
    ["storage"] rfl (by decide) (by decide)

end Apex

namespace Apex

/-! ### C7: cancellation completes the session -/

theorem cancelSkipped_length :
    ∀ (startIdx : Nat) (l : List (Nat × Step)), (cancelSkipped startIdx l).length = l.length := by
  intro startIdx l
  induction l generalizing startIdx with
  | nil => simp [cancelSkipped]
  | cons hd rest ih =>
    obtain ⟨si, s⟩ := hd
    simp [cancelSkipped, ih]

theorem cancelSkipped_mem :
    ∀ (startIdx : Nat) (l : List (Nat × Step)) (r : StepResult),
      r ∈ cancelSkipped startIdx l →
      r.status = Status.Skipped ∧ r.error = some "cancelled" := by
  intro startIdx l
  induction l generalizing startIdx with
  | nil =>
    intro r hr
    simp [cancelSkipped] at hr
  | cons hd rest ih =>
    intro r hr
    obtain ⟨si, s⟩ := hd
    simp only [cancelSkipped] at hr
    rcases List.mem_cons.mp hr with rfl | hr'
    · exact ⟨rfl, rfl⟩
    · exact ih (startIdx + 1) r hr'

theorem cancelled_results_length (env : Nat → Nat → AttemptOutcome)
    (retries timeoutMs now k : Nat) (p : Plan) (reg : Registry) :
    ((execGo env retries timeoutMs now ((flattenIdx 0 p).take k) [] [] reg).1 ++
      cancelSkipped
        ((execGo env retries timeoutMs now ((flattenIdx 0 p).take k) [] [] reg).1).length
        ((flattenIdx 0 p).drop k)).length = planSize p := by
  rw [List.length_append, cancelSkipped_length, execGo_length]
  simp only [List.length_nil, List.length_take, List.length_drop, flattenIdx_length, Nat.zero_add]
  omega

theorem cancelled_results_skipped (env : Nat → Nat → AttemptOutcome)
    (retries timeoutMs now k i : Nat) (p : Plan) (reg : Registry)
    (hki : k ≤ i) (hilt : i < planSize p) :
    ∃ sr,
      ((execGo env retries timeoutMs now ((flattenIdx 0 p).take k) [] [] reg).1 ++
        cancelSkipped
          ((execGo env retries timeoutMs now ((flattenIdx 0 p).take k) [] [] reg).1).length
          ((flattenIdx 0 p).drop k))[i]? = some sr ∧
      sr.status = Status.Skipped ∧ sr.error = some "cancelled" := by
  have hdl : ((execGo env retries timeoutMs now ((flattenIdx 0 p).take k) [] [] reg).1).length =
      min k (planSize p) := by
    rw [execGo_length]
    simp [List.length_take, flattenIdx_length]
  have hle : ((execGo env retries timeoutMs now ((flattenIdx 0 p).take k) [] [] reg).1).length ≤
      i := by
    omega
  rw [List.getElem?_append_right hle]
  have hb : i - ((execGo env retries timeoutMs now ((flattenIdx 0 p).take k) [] [] reg).1).length <
      (cancelSkipped
        ((execGo env retries timeoutMs now ((flattenIdx 0 p).take k) [] [] reg).1).length
        ((flattenIdx 0 p).drop k)).length := by
    rw [cancelSkipped_length]
    simp only [List.length_drop, flattenIdx_length]
    omega
  have hget := List.getElem?_eq_getElem hb
  refine ⟨_, hget, ?_⟩
  exact cancelSkipped_mem _ _ _ (List.getElem_mem hb)

/-- Claim C7: a session cancelled during Dispatching (after `k` steps have
resolved) still transitions through Aggregating and terminates Completed —
not Failed — and every step in flight or pending at cancellation time
carries a terminal Skipped StepResult with reason "cancelled". -/
theorem cancelled_session_completes (strategy : Request → Registry → Nat → Plan)
    (req : Request) (reg : Registry) (env : Nat → Nat → AttemptOutcome)
    (startMs endMs k : Nat) (p : Plan)
    (hplan : plan strategy req reg startMs = Except.ok p) :
    (runSessionCancelled strategy req reg env startMs endMs k).1 =
      [SessionState.Created, SessionState.Planning, SessionState.Dispatching,
        SessionState.Aggregating, SessionState.Completed] ∧
    SessionState.Failed ∉ (runSessionCancelled strategy req reg env startMs endMs k).1 ∧
    (runSessionCancelled strategy req reg env startMs endMs k).1.getLast? =
      some SessionState.Completed ∧
    ∃ res, (runSessionCancelled strategy req reg env startMs endMs k).2 = Except.ok res ∧
      res.stepResults.length = planSize p ∧
      ∀ i, k ≤ i → i < planSize p →
        ∃ sr, res.stepResults[i]? = some sr ∧ sr.status = Status.Skipped ∧
          sr.error = some "cancelled" := by
  have hred : runSessionCancelled strategy req reg env startMs endMs k =
      ([SessionState.Created, SessionState.Planning, SessionState.Dispatching,
        SessionState.Aggregating, SessionState.Completed],
        Except.ok (aggregate
          ((execGo env req.options.retries req.options.timeoutMs startMs
              ((flattenIdx 0 p).take k) [] [] reg).1 ++
            cancelSkipped
              ((execGo env req.options.retries req.options.timeoutMs startMs
                ((flattenIdx 0 p).take k) [] [] reg).1).length
              ((flattenIdx 0 p).drop k))
          (endMs - startMs))) := by
    simp only [runSessionCancelled, hplan]
  rw [hred]
  refine ⟨rfl, by simp, rfl, _, rfl, ?_, ?_⟩
  · exact cancelled_results_length env req.options.retries req.options.timeoutMs startMs k p reg
  · intro i hki hilt
    exact cancelled_results_skipped env req.options.retries req.options.timeoutMs startMs k i
      p reg hki hilt

/-- Claim C7, witnessed: the demo session cancelled after one resolved step
completes with step 1 Skipped ("cancelled"). -/
theorem cancelled_session_completes_witness :
    (runSessionCancelled demoStrategy demoAllReq demoReg demoEnvOk 0 5 1).1 =
      [SessionState.Created, SessionState.Planning, SessionState.Dispatching,
        SessionState.Aggregating, SessionState.Completed] ∧
    SessionState.Failed ∉ (runSessionCancelled demoStrategy demoAllReq demoReg demoEnvOk 0 5 1).1 ∧
    (runSessionCancelled demoStrategy demoAllReq demoReg demoEnvOk 0 5 1).1.getLast? =
      some SessionState.Completed ∧
    ∃ res,
      (runSessionCancelled demoStrategy demoAllReq demoReg demoEnvOk 0 5 1).2 = Except.ok res ∧
      res.stepResults.length = planSize demoPlan ∧
      ∀ i, 1 ≤ i → i < planSize demoPlan →
        ∃ sr, res.stepResults[i]? = some sr ∧ sr.status = Status.Skipped ∧
          sr.error = some "cancelled" :=
  cancelled_session_completes demoStrategy demoAllReq demoReg demoEnvOk 0 5 1 demoPlan rfl

end Apex
